import Mathlib

/-!
Verification of the concurrent extraction core of the airbyte CDK sources:
the asynchronous job machinery (`airbyte_cdk/sources/declarative/async_job/job.py`)
and the concurrent stream reader
(`airbyte_cdk/sources/concurrent/concurrent_stream_reader.py`).
Components whose source is only described by the specification and exercised by
the unit tests (the Timer, AsyncPartition and AsyncJobOrchestrator of
`job_orchestrator.py`) are modelled from the spec, marked as such in their
doc comments.
-/

namespace Airbyte

/-- Job status enumeration from `async_job/job.py` (class `AsyncJobStatus`):
RUNNING, COMPLETED, FAILED, TIMED_OUT. -/
inductive AsyncJobStatus where
  | RUNNING
  | COMPLETED
  | FAILED
  | TIMED_OUT
deriving DecidableEq

open AsyncJobStatus

/-- Terminal statuses per the spec: COMPLETED, FAILED and TIMED_OUT are terminal,
RUNNING is not. This matches the membership test
`status in [FAILED, TIMED_OUT, COMPLETED]` used in `AsyncJob.update_status`. -/
def AsyncJobStatus.isTerminal : AsyncJobStatus → Bool
  | RUNNING => false
  | COMPLETED => true
  | FAILED => true
  | TIMED_OUT => true

/-- Modelled from the spec: the `Timer` class (imported by `job.py` from
`async_job/timer.py`, which is not among the shown sources). Per spec §3 a Timer
owns a timeout duration and a start timestamp; `start()` (re)arms it, `stop()`
disarms it, and `has_timed_out()` is true iff it is armed and the elapsed time is
at least the duration. Wall-clock time is modelled by explicit `now : Nat`
arguments; an unarmed timer has `startTime = none`. -/
structure Timer where
  timeout : Nat
  startTime : Option Nat
deriving DecidableEq

/-- Construct a timer with the given timeout, not yet armed. -/
def Timer.new (timeout : Nat) : Timer := ⟨timeout, none⟩

/-- Arm (or re-arm) the timer at the current time. -/
def Timer.start (t : Timer) (now : Nat) : Timer := ⟨t.timeout, some now⟩

/-- Disarm the timer. -/
def Timer.stop (t : Timer) : Timer := ⟨t.timeout, none⟩

/-- The timer has timed out iff it is armed and elapsed time reached the duration. -/
def Timer.hasTimedOut (t : Timer) (now : Nat) : Bool :=
  match t.startTime with
  | some s => t.timeout ≤ now - s
  | none => false

/-- The timer is armed iff it has a start timestamp. -/
def Timer.isArmed (t : Timer) : Bool := t.startTime.isSome

/-- State of an `AsyncJob` from `async_job/job.py`: the opaque api job id
(`_api_job_id`), the last recorded status (`_status`) and the owned timer
(`_timer`). -/
structure AsyncJob where
  api_job_id : String
  recorded : AsyncJobStatus
  timer : Timer
deriving DecidableEq

/-- Constructor of `AsyncJob` (`__init__`): records RUNNING, creates a Timer with
the given timeout (default 60 minutes, modelled as 3600 time units) and starts it
at the construction time `now`. -/
def AsyncJob.new (api_job_id : String) (timeout : Option Nat) (now : Nat) : AsyncJob :=
  { api_job_id := api_job_id
    recorded := RUNNING
    timer := (Timer.new (timeout.getD 3600)).start now }

/-- Computed status (`AsyncJob.status`): TIMED_OUT whenever the timer reports
timed out, otherwise the last recorded status. -/
def AsyncJob.status (j : AsyncJob) (now : Nat) : AsyncJobStatus :=
  if j.timer.hasTimedOut now then TIMED_OUT else j.recorded

/-- Status update (`AsyncJob.update_status`): if the previous recorded status is
not RUNNING and the new one is RUNNING the timer is started; otherwise if the new
status is FAILED, TIMED_OUT or COMPLETED the timer is stopped; the recorded
status is overwritten unconditionally. -/
def AsyncJob.update_status (j : AsyncJob) (status : AsyncJobStatus) (now : Nat) : AsyncJob :=
  let timer :=
    if j.recorded ≠ RUNNING ∧ status = RUNNING then j.timer.start now
    else if status = FAILED ∨ status = TIMED_OUT ∨ status = COMPLETED then j.timer.stop
    else j.timer
  { j with recorded := status, timer := timer }

/-- Apply a sequence of `update_status` calls, each at its own time. -/
def AsyncJob.apply_updates (j : AsyncJob) : List (AsyncJobStatus × Nat) → AsyncJob
  | [] => j
  | (s, now) :: rest => (j.update_status s now).apply_updates rest

/-- C2: if the timer reports timed out, `status()` returns TIMED_OUT no matter
what the recorded status is (in particular also when it is RUNNING); and after
`update_status` with a terminal value the timer is stopped and `status()` returns
exactly that recorded value at every later observation time. -/
theorem async_job_status_timeout_precedence (j : AsyncJob) (now : Nat)
    (s : AsyncJobStatus) (tnow tobs : Nat) (hterm : s.isTerminal = true) :
    (j.timer.hasTimedOut now = true → j.status now = TIMED_OUT) ∧
    (j.update_status s tnow).timer.isArmed = false ∧
    (j.update_status s tnow).status tobs = s := by
  refine ⟨fun h => by simp [AsyncJob.status, h], ?_, ?_⟩ <;>
    cases s <;> simp_all [AsyncJob.update_status, AsyncJob.status, AsyncJobStatus.isTerminal,
      Timer.stop, Timer.isArmed, Timer.hasTimedOut]

/-- Witness for C2 at a concrete job: a running job whose timer has expired
reports TIMED_OUT, and after a COMPLETED update it reports COMPLETED with the
timer disarmed. -/
theorem async_job_status_timeout_precedence_witness :
    ((AsyncJob.new "job1" (some 10) 0).timer.hasTimedOut 10 = true →
      (AsyncJob.new "job1" (some 10) 0).status 10 = TIMED_OUT) ∧
    ((AsyncJob.new "job1" (some 10) 0).update_status COMPLETED 5).timer.isArmed = false ∧
    ((AsyncJob.new "job1" (some 10) 0).update_status COMPLETED 5).status 99 = COMPLETED :=
  async_job_status_timeout_precedence (AsyncJob.new "job1" (some 10) 0) 10 COMPLETED 5 99
    (by decide)

/-- C7: `update_status` overwrites the recorded status in every case; when the
previous recorded status is terminal and the new one is RUNNING the timer is
re-armed (started at the update time); when the new status is terminal the timer
is stopped. -/
theorem async_job_update_status_timer_discipline (j : AsyncJob) (s : AsyncJobStatus)
    (now : Nat) :
    (j.update_status s now).recorded = s ∧
    (j.recorded.isTerminal = true → s = RUNNING →
      (j.update_status s now).timer = j.timer.start now) ∧
    (s.isTerminal = true → (j.update_status s now).timer = j.timer.stop) := by
  refine ⟨by simp [AsyncJob.update_status], ?_, ?_⟩ <;>
    rcases j with ⟨id, rec, tm⟩ <;> cases rec <;> cases s <;>
      simp [AsyncJob.update_status, AsyncJobStatus.isTerminal]

/-- Witness for C7 at a concrete job: re-arming after FAILED → RUNNING and
disarming on a FAILED update. -/
theorem async_job_update_status_timer_discipline_witness :
    (((AsyncJob.new "j" none 0).update_status FAILED 1).update_status RUNNING 2).recorded
        = RUNNING ∧
    (((AsyncJob.new "j" none 0).update_status FAILED 1).update_status RUNNING 2).timer
        = ((AsyncJob.new "j" none 0).update_status FAILED 1).timer.start 2 ∧
    ((AsyncJob.new "j" none 0).update_status FAILED 1).timer
        = (AsyncJob.new "j" none 0).timer.stop := by
  have h1 := async_job_update_status_timer_discipline
    ((AsyncJob.new "j" none 0).update_status FAILED 1) RUNNING 2
  have h2 := async_job_update_status_timer_discipline (AsyncJob.new "j" none 0) FAILED 1
  exact ⟨h1.1, h1.2.1 (by decide) rfl, h2.2.2 (by decide)⟩

/-- The timer-status invariant of an `AsyncJob`: the timer is armed exactly when
the recorded status is RUNNING. -/
def AsyncJob.inv (j : AsyncJob) : Prop :=
  j.timer.isArmed = true ↔ j.recorded = RUNNING

instance (j : AsyncJob) : Decidable j.inv := by
  unfold AsyncJob.inv; infer_instance

/-- The invariant holds for a freshly constructed job and is preserved by every
single `update_status` call. -/
theorem async_job_inv_preserved :
    (∀ (id : String) (timeout : Option Nat) (now : Nat), (AsyncJob.new id timeout now).inv) ∧
    (∀ (j : AsyncJob) (s : AsyncJobStatus) (now : Nat),
      j.inv → (j.update_status s now).inv) := by
  constructor
  · intro id timeout now
    simp [AsyncJob.new, AsyncJob.inv, Timer.new, Timer.start, Timer.isArmed]
  · intro j s now h
    rcases j with ⟨id, rec, tm⟩
    cases rec <;> cases s <;>
      simp_all [AsyncJob.update_status, AsyncJob.inv, Timer.start, Timer.stop, Timer.isArmed]

/-- C9: every job reachable from the constructor through any sequence of
`update_status` calls keeps the timer armed exactly when its recorded status is
RUNNING; consequently whenever the recorded status is not RUNNING, `status()`
reports exactly the recorded status (a spurious TIMED_OUT can only be observed
while the recorded status is RUNNING). -/
theorem async_job_timer_armed_iff_running (id : String) (timeout : Option Nat)
    (now0 : Nat) (updates : List (AsyncJobStatus × Nat)) (now : Nat) :
    ((AsyncJob.new id timeout now0).apply_updates updates).inv ∧
    (((AsyncJob.new id timeout now0).apply_updates updates).recorded ≠ RUNNING →
      ((AsyncJob.new id timeout now0).apply_updates updates).status now
        = ((AsyncJob.new id timeout now0).apply_updates updates).recorded) := by
  have hinv : ∀ (j : AsyncJob) (us : List (AsyncJobStatus × Nat)),
      j.inv → (j.apply_updates us).inv := by
    intro j us
    induction us generalizing j with
    | nil => intro h; exact h
    | cons u rest ih =>
      intro h
      exact ih _ (async_job_inv_preserved.2 j u.1 u.2 h)
  have hj : ((AsyncJob.new id timeout now0).apply_updates updates).inv :=
    hinv _ _ (async_job_inv_preserved.1 id timeout now0)
  refine ⟨hj, fun hnr => ?_⟩
  set j := (AsyncJob.new id timeout now0).apply_updates updates with hdef
  have harm : j.timer.isArmed = false := by
    rcases h : j.timer.isArmed with _ | _
    · rfl
    · exact absurd (hj.mp h) hnr
  have hst : j.timer.startTime = none := by
    rcases h : j.timer.startTime with _ | s
    · rfl
    · simp [Timer.isArmed, h] at harm
  simp [AsyncJob.status, Timer.hasTimedOut, hst]

/-- Witness for C9 at a concrete job and update sequence ending in a non-RUNNING
recorded status. -/
theorem async_job_timer_armed_iff_running_witness :
    ((AsyncJob.new "j" (some 10) 0).apply_updates
        [(RUNNING, 1), (COMPLETED, 2)]).inv ∧
    (((AsyncJob.new "j" (some 10) 0).apply_updates
        [(RUNNING, 1), (COMPLETED, 2)]).recorded ≠ RUNNING →
      ((AsyncJob.new "j" (some 10) 0).apply_updates
          [(RUNNING, 1), (COMPLETED, 2)]).status 50
        = ((AsyncJob.new "j" (some 10) 0).apply_updates
            [(RUNNING, 1), (COMPLETED, 2)]).recorded) :=
  async_job_timer_armed_iff_running "j" (some 10) 0 [(RUNNING, 1), (COMPLETED, 2)] 50

/-- C10: `api_job_id()` returns the id supplied at construction, unchanged by any
sequence of `update_status` calls. -/
theorem async_job_api_job_id_frame (id : String) (timeout : Option Nat) (now0 : Nat)
    (updates : List (AsyncJobStatus × Nat)) :
    ((AsyncJob.new id timeout now0).apply_updates updates).api_job_id = id := by
  have hframe : ∀ (j : AsyncJob) (us : List (AsyncJobStatus × Nat)),
      (j.apply_updates us).api_job_id = j.api_job_id := by
    intro j us
    induction us generalizing j with
    | nil => rfl
    | cons u rest ih =>
      simpa [AsyncJob.apply_updates, AsyncJob.update_status] using
        ih (j.update_status u.1 u.2)
  simp [hframe, AsyncJob.new]

/-- Modelled from the spec: the aggregated status of an `AsyncPartition`
(class `AsyncPartition` of `job_orchestrator.py`, not among the shown sources;
spec §3 and the `AsyncPartitionTest` unit tests). Precedence over the jobs'
current statuses: any FAILED gives FAILED, else any TIMED_OUT gives TIMED_OUT,
else any RUNNING gives RUNNING, else COMPLETED. -/
def partitionStatus (statuses : List AsyncJobStatus) : AsyncJobStatus :=
  if FAILED ∈ statuses then FAILED
  else if TIMED_OUT ∈ statuses then TIMED_OUT
  else if RUNNING ∈ statuses then RUNNING
  else COMPLETED

/-- C1: the aggregation precedence holds for every list of job statuses, and the
result is invariant under permutation, so it is a function of the multiset of
statuses: FAILED wins over everything, then TIMED_OUT, then RUNNING, and a
partition is COMPLETED exactly when none of the jobs is FAILED, TIMED_OUT or
RUNNING. -/
theorem partition_status_precedence (statuses statuses' : List AsyncJobStatus) :
    (FAILED ∈ statuses → partitionStatus statuses = FAILED) ∧
    (FAILED ∉ statuses → TIMED_OUT ∈ statuses → partitionStatus statuses = TIMED_OUT) ∧
    (FAILED ∉ statuses → TIMED_OUT ∉ statuses → RUNNING ∈ statuses →
      partitionStatus statuses = RUNNING) ∧
    (FAILED ∉ statuses → TIMED_OUT ∉ statuses → RUNNING ∉ statuses →
      partitionStatus statuses = COMPLETED) ∧
    (statuses.Perm statuses' → partitionStatus statuses = partitionStatus statuses') := by
  refine ⟨fun h => by simp [partitionStatus, h],
    fun h1 h2 => by simp [partitionStatus, h1, h2],
    fun h1 h2 h3 => by simp [partitionStatus, h1, h2, h3],
    fun h1 h2 h3 => by simp [partitionStatus, h1, h2, h3],
    fun hperm => ?_⟩
  simp [partitionStatus, hperm.mem_iff]

/-- Witness for C1 at the concrete status lists of the unit tests: one job of
each status aggregates to FAILED; every status except FAILED aggregates to
TIMED_OUT; RUNNING and COMPLETED aggregate to RUNNING; ten COMPLETED jobs
aggregate to COMPLETED; and a permuted list agrees. -/
theorem partition_status_precedence_witness :
    partitionStatus [RUNNING, COMPLETED, FAILED, TIMED_OUT] = FAILED ∧
    partitionStatus [RUNNING, COMPLETED, TIMED_OUT] = TIMED_OUT ∧
    partitionStatus [RUNNING, COMPLETED] = RUNNING ∧
    partitionStatus (List.replicate 10 COMPLETED) = COMPLETED ∧
    partitionStatus [COMPLETED, RUNNING] = partitionStatus [RUNNING, COMPLETED] := by
  refine ⟨(partition_status_precedence [RUNNING, COMPLETED, FAILED, TIMED_OUT] []).1
      (by decide),
    (partition_status_precedence [RUNNING, COMPLETED, TIMED_OUT] []).2.1
      (by decide) (by decide),
    (partition_status_precedence [RUNNING, COMPLETED] []).2.2.1
      (by decide) (by decide) (by decide),
    (partition_status_precedence (List.replicate 10 COMPLETED) []).2.2.2.1
      (by decide) (by decide) (by decide),
    (partition_status_precedence [COMPLETED, RUNNING] [RUNNING, COMPLETED]).2.2.2.2
      (by decide)⟩

/-- Modelled from the spec: `AsyncJobOrchestrator.fetch_records` of
`job_orchestrator.py` (not among the shown sources; spec §4.3): for each job of
the partition, in the partition's job iteration order, call the repository's
`fetch_records` and yield every returned record in that call's order. The
repository call is abstracted as a function from jobs to the record list it
returns. -/
def fetch_records {J R : Type} (repo : J → List R) : List J → List R
  | [] => []
  | j :: rest => repo j ++ fetch_records repo rest

/-- C8: `fetch_records` concatenates the repository results of the partition's
jobs, in the partition's job iteration order, with no reordering or
deduplication: the output is exactly the flattening of the per-job result
lists. -/
theorem fetch_records_concat {J R : Type} (repo : J → List R) (jobs : List J) :
    fetch_records repo jobs = (jobs.map repo).flatten := by
  induction jobs with
  | nil => rfl
  | cons j rest ih => simp [fetch_records, ih]

/-- A queue record from `concurrent/record.py` as used by
`concurrent_stream_reader.py`: it wraps one `stream_data` payload. Whether a
payload counts as an actual data record is decided by the predicate
`FullRefreshStreamReader.is_record` on the payload, passed separately below. -/
structure Record (α : Type) where
  stream_data : α
deriving DecidableEq

/-- Consumer worker count from
`ConcurrentStreamReader._get_num_dedicated_consumer_worker`:
`int(max(max_workers / 2, 1))`. For natural inputs, Python's true division
followed by `int` truncation equals floor division, so this is
`max (max_workers / 2) 1` over Nat. -/
def get_num_dedicated_consumer_worker (max_workers : Nat) : Nat :=
  max (max_workers / 2) 1

/-- The sentinel marker `_SENTINEL` put on the queue once per consumer. -/
inductive QueueItem (σ : Type) where
  | partition (p : σ)
  | sentinel
deriving DecidableEq

/-- Inner emission loop of `ConcurrentStreamReader.read_stream` over one
consumer's result list: each record's `stream_data` is yielded, then, if it is
an actual data record, the counter is incremented and the limit predicate is
consulted; if the limit is reached, emission stops at once. Returns the emitted
payloads, the final counter and whether the limit was hit. -/
def emit_records {α : Type} (is_record : α → Bool) (limit_reached : Nat → Bool) :
    List (Record α) → Nat → List α × Nat × Bool
  | [], counter => ([], counter, false)
  | r :: rest, counter =>
    if is_record r.stream_data then
      if limit_reached (counter + 1) then ([r.stream_data], counter + 1, true)
      else
        let res := emit_records is_record limit_reached rest (counter + 1)
        (r.stream_data :: res.1, res.2.1, res.2.2)
    else
      let res := emit_records is_record limit_reached rest counter
      (r.stream_data :: res.1, res.2.1, res.2.2)

/-- Outer emission loop of `read_stream` over the completed consumer futures'
results: consumer result lists are drained in completion order; once the limit
is reached inside one list, the remaining buffered lists are not emitted. -/
def emit_from_consumers {α : Type} (is_record : α → Bool) (limit_reached : Nat → Bool) :
    List (List (Record α)) → Nat → List α
  | [], _ => []
  | result :: rest, counter =>
    let res := emit_records is_record limit_reached result counter
    if res.2.2 then res.1
    else res.1 ++ emit_from_consumers is_record limit_reached rest res.2.1

/-- Outcome of one `read_stream` call, keeping the bookkeeping the claims are
about: the consumer tasks submitted to the pool, the sentinels put on the queue
after generation completes, and the emitted payload sequence. -/
structure ReadOutcome (α : Type) where
  consumer_tasks : List Unit
  sentinels : List (QueueItem Unit)
  output : List α
deriving DecidableEq

/-- Shallow embedding of `ConcurrentStreamReader.read_stream`: submit one
consumer task per dedicated consumer worker, after partition generation enqueue
one sentinel per iteration of the same worker-count loop, then drain each
completed consumer's buffered records through the counting/limit loop. The
consumer results (one record list per consumer future, in completion order) are
inputs, since thread scheduling is outside the model. -/
def read_stream {α : Type} (max_workers : Nat)
    (consumer_results : List (List (Record α)))
    (is_record : α → Bool) (limit_reached : Nat → Bool) : ReadOutcome α :=
  let numConsumers := get_num_dedicated_consumer_worker max_workers
  { consumer_tasks := List.replicate numConsumers ()
    sentinels := List.replicate numConsumers QueueItem.sentinel
    output := emit_from_consumers is_record limit_reached consumer_results 0 }

/-- C4: for every `max_workers ≥ 1` the computed consumer count is
`max (max_workers / 2) 1`, exactly that many consumer tasks are submitted, and
exactly as many sentinels are enqueued as consumer tasks were submitted. -/
theorem read_stream_sentinel_count {α : Type} (max_workers : Nat)
    (consumer_results : List (List (Record α)))
    (is_record : α → Bool) (limit_reached : Nat → Bool)
    (_hw : 1 ≤ max_workers) :
    (read_stream max_workers consumer_results is_record limit_reached).consumer_tasks.length
        = max (max_workers / 2) 1 ∧
    (read_stream max_workers consumer_results is_record limit_reached).sentinels.length
        = (read_stream max_workers consumer_results is_record
            limit_reached).consumer_tasks.length := by
  simp [read_stream, get_num_dedicated_consumer_worker]

/-- Witness for C4 at the spec's examples: max_workers = 1 gives 1 consumer and
1 sentinel; max_workers = 10 gives 5 consumers and 5 sentinels. -/
theorem read_stream_sentinel_count_witness :
    (read_stream 1 ([] : List (List (Record Unit))) (fun _ => true)
        (fun _ => false)).consumer_tasks.length = 1 ∧
    (read_stream 1 ([] : List (List (Record Unit))) (fun _ => true)
        (fun _ => false)).sentinels.length = 1 ∧
    (read_stream 10 ([] : List (List (Record Unit))) (fun _ => true)
        (fun _ => false)).consumer_tasks.length = 5 ∧
    (read_stream 10 ([] : List (List (Record Unit))) (fun _ => true)
        (fun _ => false)).sentinels.length = 5 := by
  have h1 := read_stream_sentinel_count 1 ([] : List (List (Record Unit)))
    (fun _ => true) (fun _ => false) (by decide)
  have h10 := read_stream_sentinel_count 10 ([] : List (List (Record Unit)))
    (fun _ => true) (fun _ => false) (by decide)
  refine ⟨h1.1.trans (by decide), ?_, h10.1.trans (by decide), ?_⟩
  · rw [h1.2]; exact h1.1.trans (by decide)
  · rw [h10.2]; exact h10.1.trans (by decide)

/-- Number of actual data records in one consumer result list. -/
def data_count {α : Type} (is_record : α → Bool) (records : List (Record α)) : Nat :=
  records.countP (fun r => is_record r.stream_data)

/-- Number of actual data records buffered across all consumer result lists. -/
def total_data_count {α : Type} (is_record : α → Bool)
    (results : List (List (Record α))) : Nat :=
  (results.map (data_count is_record)).sum

/-- Behaviour of the inner emission loop under a threshold limit predicate
reporting true from count n on, starting below the threshold: either the list
holds enough data records to reach the threshold, in which case emission stops
with the counter at exactly n and exactly n - c data records emitted, or it does
not, in which case the whole list is emitted unstopped and the counter advances
by the list's data-record count. -/
theorem emit_records_limit_spec {α : Type} (is_record : α → Bool) (n : Nat) :
    ∀ (l : List (Record α)) (c : Nat), c < n →
      (n ≤ c + data_count is_record l →
        (emit_records is_record (fun k => decide (n ≤ k)) l c).2.2 = true ∧
        (emit_records is_record (fun k => decide (n ≤ k)) l c).2.1 = n ∧
        ((emit_records is_record (fun k => decide (n ≤ k)) l c).1).countP is_record
          = n - c) ∧
      (c + data_count is_record l < n →
        (emit_records is_record (fun k => decide (n ≤ k)) l c).2.2 = false ∧
        (emit_records is_record (fun k => decide (n ≤ k)) l c).2.1
          = c + data_count is_record l ∧
        (emit_records is_record (fun k => decide (n ≤ k)) l c).1
          = l.map Record.stream_data) := by
  intro l
  induction l with
  | nil =>
    intro c hc
    refine ⟨fun h => ?_, fun _ => ?_⟩
    · simp [data_count] at h; omega
    · simp [emit_records, data_count]
  | cons r rest ih =>
    intro c hc
    by_cases hr : is_record r.stream_data = true
    · have hdc : data_count is_record (r :: rest) = data_count is_record rest + 1 := by
        simp [data_count, List.countP_cons, hr]
      by_cases hlim : n ≤ c + 1
      · have hn : n = c + 1 := by omega
        refine ⟨fun _ => ?_, fun h => ?_⟩
        · simp [emit_records, hr, hlim, List.countP_cons, hn]
        · omega
      · have hc1 : c + 1 < n := by omega
        have ihr := ih (c + 1) hc1
        refine ⟨fun h => ?_, fun h => ?_⟩
        · have hrec := ihr.1 (by omega)
          simp [emit_records, hr, hlim, List.countP_cons, hrec.1, hrec.2.1, hrec.2.2]
          omega
        · have hrec := ihr.2 (by omega)
          simp [emit_records, hr, hlim, List.countP_cons, hrec.1, hrec.2.1, hrec.2.2]
          omega
    · have hr' : is_record r.stream_data = false := by
        rcases h : is_record r.stream_data with _ | _
        · rfl
        · exact absurd h hr
      have hdc : data_count is_record (r :: rest) = data_count is_record rest := by
        simp [data_count, List.countP_cons, hr']
      have ihr := ih c hc
      refine ⟨fun h => ?_, fun h => ?_⟩
      · have hrec := ihr.1 (by omega)
        simp [emit_records, hr', List.countP_cons, hrec.1, hrec.2.1, hrec.2.2, hdc]
      · have hrec := ihr.2 (by omega)
        simp [emit_records, hr', List.countP_cons, hrec.1, hrec.2.1, hrec.2.2, hdc]

/-- Behaviour of the outer emission loop under a threshold limit predicate:
starting from a counter below the threshold, the number of data records emitted
is the smaller of the remaining allowance and the total number of buffered data
records. -/
theorem emit_from_consumers_limit_spec {α : Type} (is_record : α → Bool) (n : Nat) :
    ∀ (results : List (List (Record α))) (c : Nat), c < n →
      ((emit_from_consumers is_record (fun k => decide (n ≤ k)) results c).countP
        is_record) = min (n - c) (total_data_count is_record results) := by
  intro results
  induction results with
  | nil =>
    intro c hc
    simp [emit_from_consumers, total_data_count]
  | cons result rest ih =>
    intro c hc
    have htot : total_data_count is_record (result :: rest)
        = data_count is_record result + total_data_count is_record rest := by
      simp [total_data_count]
    by_cases h : n ≤ c + data_count is_record result
    · have hrec := (emit_records_limit_spec is_record n result c hc).1 h
      simp [emit_from_consumers, hrec.1, hrec.2.2, htot]
      omega
    · have hrec := (emit_records_limit_spec is_record n result c hc).2 (by omega)
      have hcount : ((emit_records is_record (fun k => decide (n ≤ k)) result c).1).countP
          is_record = data_count is_record result := by
        simp [hrec.2.2, data_count, List.countP_map]
        rfl
      have hih := ih (c + data_count is_record result) (by omega)
      simp [emit_from_consumers, hrec.1, hrec.2.1, List.countP_append, hcount, hih, htot]
      omega

/-- C5: under the threshold record-limit predicate with limit n ≥ 1,
`read_stream` emits exactly the smaller of n and the number of buffered data
records; in particular when at least n data records are buffered, exactly n data
records are emitted and the remaining buffered data records are not. -/
theorem read_stream_record_limit {α : Type} (max_workers : Nat)
    (results : List (List (Record α))) (is_record : α → Bool) (n : Nat)
    (hn : 1 ≤ n) :
    ((read_stream max_workers results is_record (fun k => decide (n ≤ k))).output).countP
        is_record = min n (total_data_count is_record results) ∧
    (n ≤ total_data_count is_record results →
      ((read_stream max_workers results is_record
          (fun k => decide (n ≤ k))).output).countP is_record = n) := by
  have h := emit_from_consumers_limit_spec is_record n results 0 (by omega)
  constructor
  · simpa [read_stream] using h
  · intro hle
    have : min n (total_data_count is_record results) = n := by omega
    simpa [read_stream, this] using h

/-- Witness for C5 at the spec's example: limit 3 with 5 buffered data records
(split 3 and 2 across two consumers) emits exactly 3 data records. -/
theorem read_stream_record_limit_witness :
    ((read_stream 4 [[⟨0⟩, ⟨1⟩, ⟨2⟩], [⟨3⟩, ⟨4⟩]] (fun _ => true)
        (fun k => decide (3 ≤ k))).output).countP (fun _ => true) = 3 :=
  (read_stream_record_limit 4 ([[⟨0⟩, ⟨1⟩, ⟨2⟩], [⟨3⟩, ⟨4⟩]] : List (List (Record Nat)))
      (fun _ => true) 3 (by decide)).2 (by decide)

/-- FAILED and TIMED_OUT are the statuses on which the orchestrator raises. -/
def AsyncJobStatus.isBad : AsyncJobStatus → Bool
  | FAILED => true
  | TIMED_OUT => true
  | RUNNING => false
  | COMPLETED => false

/-- Modelled from the spec: one partition tracked by `AsyncJobOrchestrator.
create_and_get_completed_partitions` of `job_orchestrator.py` (not among the
shown sources; spec §4.3, minimal one-job-per-slice grouping as in step 1 and
the orchestrator unit tests). It holds the originating slice (abstracted as a
number), the job's current status, and the schedule of statuses the repository
will report on successive polls, one per polling round, mirroring the
`_status_update_per_jobs` driver of the unit tests. -/
structure MPartition where
  slice : Nat
  status : AsyncJobStatus
  pending : List AsyncJobStatus
deriving DecidableEq

/-- Modelled from the spec: one `update_jobs_status` poll on a single partition.
Only non-terminal jobs are polled (spec §4.3 step 2); a poll consumes the next
scheduled status. -/
def MPartition.poll (p : MPartition) : MPartition :=
  if p.status.isTerminal then p
  else
    match p.pending with
    | [] => p
    | s :: rest => { p with status := s, pending := rest }

/-- Modelled from the spec: outcome of one orchestration run: normal
termination, the domain exception carrying the partition that failed or timed
out (spec §4.3 step 4), or exhaustion of the model's polling-round budget. -/
inductive OrchOutcome where
  | ok
  | failed (p : MPartition)
  | outOfFuel
deriving DecidableEq

/-- Result of a run: the partitions yielded so far, plus the outcome. -/
structure OrchResult where
  yielded : List MPartition
  outcome : OrchOutcome
deriving DecidableEq

/-- Modelled from the spec: one pass of the orchestrator over its non-yielded
partitions after a poll (spec §4.3 steps 3–4): in iteration order a COMPLETED
partition is yielded at once, a FAILED or TIMED_OUT partition stops the whole
generator with the exception (later partitions are not examined), and a RUNNING
partition is kept for the next round. Returns (yielded, kept, raised). -/
def orch_classify : List MPartition → List MPartition × List MPartition × Option MPartition
  | [] => ([], [], none)
  | p :: rest =>
    if p.status = COMPLETED then
      let res := orch_classify rest
      (p :: res.1, res.2.1, res.2.2)
    else if p.status.isBad then ([], [], some p)
    else
      let res := orch_classify rest
      (res.1, p :: res.2.1, res.2.2)

/-- Modelled from the spec: the polling loop of
`create_and_get_completed_partitions` (spec §4.3 step 2): while partitions
remain, poll every non-terminal job, then yield/raise/keep per pass; the number
of polling rounds is bounded by explicit fuel since the Python loop is
unbounded. -/
def orch_run : Nat → List MPartition → OrchResult
  | _, [] => ⟨[], .ok⟩
  | 0, _ :: _ => ⟨[], .outOfFuel⟩
  | fuel + 1, p :: ps =>
    let polled := (p :: ps).map MPartition.poll
    let c := orch_classify polled
    match c.2.2 with
    | some bad => ⟨c.1, .failed bad⟩
    | none =>
      let res := orch_run fuel c.2.1
      ⟨c.1 ++ res.yielded, res.outcome⟩

/-- Modelled from the spec: job creation (spec §4.3 step 1): for each input
slice one job is started and recorded RUNNING, grouped into a one-job
partition carrying the slice; the second component of each input is the
schedule of statuses the repository will report for that slice's job. -/
def orch_start_jobs (slices : List (Nat × List AsyncJobStatus)) : List MPartition :=
  slices.map fun s => ⟨s.1, RUNNING, s.2⟩

/-- A run reaches a bad status within its fuel: some polling round produces a
partition whose status is FAILED or TIMED_OUT. Defined by the same recursion as
`orch_run` so that the two align round by round. -/
def orch_reaches_bad : Nat → List MPartition → Bool
  | _, [] => false
  | 0, _ :: _ => false
  | fuel + 1, p :: ps =>
    let c := orch_classify ((p :: ps).map MPartition.poll)
    match c.2.2 with
    | some _ => true
    | none => orch_reaches_bad fuel c.2.1

/-- Unfolding of one round of `orch_run` on a non-empty partition list, with
the classification pass named. -/
theorem orch_run_cons (fuel : Nat) (q : MPartition) (qs : List MPartition) :
    orch_run (fuel + 1) (q :: qs) =
      match (orch_classify ((q :: qs).map MPartition.poll)).2.2 with
      | some bad => ⟨(orch_classify ((q :: qs).map MPartition.poll)).1, .failed bad⟩
      | none =>
        ⟨(orch_classify ((q :: qs).map MPartition.poll)).1 ++
            (orch_run fuel (orch_classify ((q :: qs).map MPartition.poll)).2.1).yielded,
          (orch_run fuel
            (orch_classify ((q :: qs).map MPartition.poll)).2.1).outcome⟩ := rfl

/-- Unfolding of one round of `orch_reaches_bad` on a non-empty partition
list. -/
theorem orch_reaches_bad_cons (fuel : Nat) (q : MPartition) (qs : List MPartition) :
    orch_reaches_bad (fuel + 1) (q :: qs) =
      match (orch_classify ((q :: qs).map MPartition.poll)).2.2 with
      | some _ => true
      | none =>
        orch_reaches_bad fuel (orch_classify ((q :: qs).map MPartition.poll)).2.1 := rfl

/-- Every partition in the yielded component of a classification pass has
status COMPLETED. -/
theorem orch_classify_yield_completed :
    ∀ (l : List MPartition), ∀ p ∈ (orch_classify l).1, p.status = COMPLETED := by
  intro l
  induction l with
  | nil => intro p hp; simp [orch_classify] at hp
  | cons q rest ih =>
    intro p hp
    by_cases hq : q.status = COMPLETED
    · simp [orch_classify, hq] at hp
      rcases hp with hp | hp
      · rw [hp]; exact hq
      · exact ih p hp
    · by_cases hb : q.status.isBad = true
      · simp [orch_classify, hq, hb] at hp
      · simp [orch_classify, hq, hb] at hp
        exact ih p hp

/-- A classification pass raises only on a partition whose status is FAILED or
TIMED_OUT. -/
theorem orch_classify_bad_status :
    ∀ (l : List MPartition) (b : MPartition),
      (orch_classify l).2.2 = some b → b.status.isBad = true := by
  intro l
  induction l with
  | nil => intro b hb; simp [orch_classify] at hb
  | cons q rest ih =>
    intro b hb
    by_cases hq : q.status = COMPLETED
    · simp [orch_classify, hq] at hb
      exact ih b hb
    · by_cases hbad : q.status.isBad = true
      · simp [orch_classify, hq, hbad] at hb
        rw [← hb]
        exact hbad
      · simp [orch_classify, hq, hbad] at hb
        exact ih b hb

/-- Every partition ever yielded by a run has status COMPLETED at the moment it
is yielded. -/
theorem orch_run_yielded_completed :
    ∀ (fuel : Nat) (ps : List MPartition),
      ∀ p ∈ (orch_run fuel ps).yielded, p.status = COMPLETED := by
  intro fuel
  induction fuel with
  | zero =>
    intro ps p hp
    cases ps with
    | nil => simp [orch_run] at hp
    | cons q qs => simp [orch_run] at hp
  | succ fuel ih =>
    intro ps p hp
    cases ps with
    | nil => simp [orch_run] at hp
    | cons q qs =>
      rcases hc : (orch_classify ((q :: qs).map MPartition.poll)).2.2 with _ | bad
      · rw [orch_run_cons, hc] at hp
        simp only [List.mem_append] at hp
        rcases hp with hp | hp
        · exact orch_classify_yield_completed _ p hp
        · exact ih _ p hp
      · rw [orch_run_cons, hc] at hp
        exact orch_classify_yield_completed _ p hp

/-- C3: whenever some polling round within the run's budget produces a
partition whose (aggregated) status is FAILED or TIMED_OUT, the run stops with
the domain exception carrying a failed-or-timed-out partition, that partition
is not among the yielded ones, and in fact every yielded partition is
COMPLETED, so no bad partition is ever yielded. -/
theorem orchestrator_raises_on_bad (fuel : Nat) (ps : List MPartition)
    (hbad : orch_reaches_bad fuel ps = true) :
    (∀ p ∈ (orch_run fuel ps).yielded, p.status = COMPLETED) ∧
    ∃ bad, (orch_run fuel ps).outcome = .failed bad ∧
      (bad.status = FAILED ∨ bad.status = TIMED_OUT) ∧
      bad ∉ (orch_run fuel ps).yielded := by
  refine ⟨orch_run_yielded_completed fuel ps, ?_⟩
  induction fuel generalizing ps with
  | zero =>
    cases ps with
    | nil => simp [orch_reaches_bad] at hbad
    | cons q qs => simp [orch_reaches_bad] at hbad
  | succ fuel ih =>
    cases ps with
    | nil => simp [orch_reaches_bad] at hbad
    | cons q qs =>
      rcases hc : (orch_classify ((q :: qs).map MPartition.poll)).2.2 with _ | bad
      · rw [orch_reaches_bad_cons, hc] at hbad
        obtain ⟨b, hout, hstat, hmem⟩ := ih _ hbad
        refine ⟨b, ?_, hstat, ?_⟩
        · rw [orch_run_cons, hc]
          exact hout
        · intro hb
          rw [orch_run_cons, hc] at hb
          simp only [List.mem_append] at hb
          rcases hb with hb | hb
          · have := orch_classify_yield_completed _ b hb
            rcases hstat with h | h <;> rw [h] at this <;> exact absurd this (by decide)
          · exact hmem hb
      · have hbs := orch_classify_bad_status _ bad hc
        have hstat : bad.status = FAILED ∨ bad.status = TIMED_OUT := by
          rcases h : bad.status with _ | _ | _ | _ <;>
            rw [h] at hbs <;> first | exact Or.inl rfl | exact Or.inr rfl |
              exact absurd hbs (by decide)
        refine ⟨bad, ?_, hstat, ?_⟩
        · rw [orch_run_cons, hc]
        · intro hb
          rw [orch_run_cons, hc] at hb
          have := orch_classify_yield_completed _ bad hb
          rcases hstat with h | h <;> rw [h] at this <;> exact absurd this (by decide)

/-- Witness for C3 at the unit test's scenario: a single slice whose job's first
polled status is TIMED_OUT makes the run raise with that partition, which is
never yielded. -/
theorem orchestrator_raises_on_bad_witness :
    (∀ p ∈ (orch_run 3 (orch_start_jobs [(0, [TIMED_OUT])])).yielded,
      p.status = COMPLETED) ∧
    ∃ bad, (orch_run 3 (orch_start_jobs [(0, [TIMED_OUT])])).outcome = .failed bad ∧
      (bad.status = FAILED ∨ bad.status = TIMED_OUT) ∧
      bad ∉ (orch_run 3 (orch_start_jobs [(0, [TIMED_OUT])])).yielded :=
  orchestrator_raises_on_bad 3 (orch_start_jobs [(0, [TIMED_OUT])]) (by decide)

/-- A schedule under which the job eventually reaches COMPLETED: some prefix of
RUNNING reports followed by a COMPLETED report. -/
def completes_sched : List AsyncJobStatus → Bool
  | [] => false
  | COMPLETED :: _ => true
  | RUNNING :: rest => completes_sched rest
  | FAILED :: _ => false
  | TIMED_OUT :: _ => false

/-- Number of polling rounds a schedule needs before its COMPLETED report is
consumed. -/
def rounds_to_complete : List AsyncJobStatus → Nat
  | [] => 0
  | COMPLETED :: _ => 1
  | RUNNING :: rest => rounds_to_complete rest + 1
  | FAILED :: rest => rounds_to_complete rest + 1
  | TIMED_OUT :: rest => rounds_to_complete rest + 1

/-- A completing schedule needs at least one polling round. -/
theorem rounds_to_complete_pos (s : List AsyncJobStatus)
    (h : completes_sched s = true) : 1 ≤ rounds_to_complete s := by
  cases s with
  | nil => simp [completes_sched] at h
  | cons a rest => cases a <;> simp [rounds_to_complete]

/-- Polling never changes the slice carried by a partition. -/
theorem mpartition_poll_slice (p : MPartition) : (MPartition.poll p).slice = p.slice := by
  unfold MPartition.poll
  split
  · rfl
  · split <;> rfl

/-- On a list with no FAILED or TIMED_OUT partition, a classification pass
raises nothing, yields the COMPLETED partitions and keeps the rest. -/
theorem orch_classify_no_bad :
    ∀ (l : List MPartition), (∀ p ∈ l, p.status.isBad = false) →
      (orch_classify l).2.2 = none ∧
      (orch_classify l).1 = l.filter (fun p => decide (p.status = COMPLETED)) ∧
      (orch_classify l).2.1 = l.filter (fun p => !decide (p.status = COMPLETED)) := by
  intro l
  induction l with
  | nil => intro _; simp [orch_classify]
  | cons q rest ih =>
    intro h
    have hq := h q (List.mem_cons_self q rest)
    have hrest := ih fun p hp => h p (List.mem_cons_of_mem q hp)
    by_cases hqc : q.status = COMPLETED
    · simp [orch_classify, hqc, hrest.1, hrest.2.1, hrest.2.2, List.filter_cons]
    · simp [orch_classify, hqc, hq, hrest.1, hrest.2.1, hrest.2.2, List.filter_cons]

/-- Generalised completion lemma: from any state whose partitions are all
RUNNING with completing schedules finishing within the fuel, the run terminates
normally and the yielded partitions' slices are a permutation of the state's
slices (one yield per partition, none lost, none duplicated). -/
theorem orch_run_all_complete (fuel : Nat) :
    ∀ ps : List MPartition,
      (∀ p ∈ ps, p.status = RUNNING ∧ completes_sched p.pending = true ∧
        rounds_to_complete p.pending ≤ fuel) →
      (orch_run fuel ps).outcome = .ok ∧
      ((orch_run fuel ps).yielded.map MPartition.slice).Perm
        (ps.map MPartition.slice) := by
  induction fuel with
  | zero =>
    intro ps h
    cases ps with
    | nil => simp [orch_run]
    | cons q qs =>
      have hq := h q (List.mem_cons_self q qs)
      have := rounds_to_complete_pos _ hq.2.1
      omega
  | succ fuel ih =>
    intro ps h
    cases ps with
    | nil => simp [orch_run]
    | cons q qs =>
      have hpoll : ∀ p' ∈ (q :: qs).map MPartition.poll,
          (p'.status = COMPLETED ∨ p'.status = RUNNING) ∧
          (p'.status = RUNNING → completes_sched p'.pending = true ∧
            rounds_to_complete p'.pending ≤ fuel) := by
        intro p' hp'
        rw [List.mem_map] at hp'
        obtain ⟨p, hp, rfl⟩ := hp'
        obtain ⟨hst, hcs, hrc⟩ := h p hp
        cases hpend : p.pending with
        | nil => rw [hpend] at hcs; simp [completes_sched] at hcs
        | cons s rest =>
          rw [hpend] at hcs hrc
          have hpeq : MPartition.poll p = ⟨p.slice, s, rest⟩ := by
            simp [MPartition.poll, hst, AsyncJobStatus.isTerminal, hpend]
          rw [hpeq]
          cases s with
          | COMPLETED =>
            refine ⟨Or.inl rfl, fun hr => ?_⟩
            simp at hr
          | RUNNING =>
            refine ⟨Or.inr rfl, fun _ => ⟨?_, ?_⟩⟩
            · show completes_sched rest = true
              simpa [completes_sched] using hcs
            · show rounds_to_complete rest ≤ fuel
              have hrw : rounds_to_complete (RUNNING :: rest)
                  = rounds_to_complete rest + 1 := rfl
              rw [hrw] at hrc
              exact Nat.le_of_succ_le_succ hrc
          | FAILED => simp [completes_sched] at hcs
          | TIMED_OUT => simp [completes_sched] at hcs
      have hnobad : ∀ p' ∈ (q :: qs).map MPartition.poll, p'.status.isBad = false := by
        intro p' hp'
        rcases (hpoll p' hp').1 with hcmp | hrun
        · rw [hcmp]; rfl
        · rw [hrun]; rfl
      obtain ⟨hnone, hyield, hkeep⟩ := orch_classify_no_bad _ hnobad
      have harg : ∀ p' ∈ (orch_classify ((q :: qs).map MPartition.poll)).2.1,
          p'.status = RUNNING ∧ completes_sched p'.pending = true ∧
            rounds_to_complete p'.pending ≤ fuel := by
        intro p' hp'
        rw [hkeep, List.mem_filter] at hp'
        obtain ⟨hmem, hcond⟩ := hp'
        have hconc := hpoll p' hmem
        have hrun : p'.status = RUNNING := by
          rcases hconc.1 with hcmp | hrun
          · rw [hcmp] at hcond; simp at hcond
          · exact hrun
        exact ⟨hrun, hconc.2 hrun⟩
      have hrec := ih ((orch_classify ((q :: qs).map MPartition.poll)).2.1) harg
      rw [orch_run_cons, hnone]
      refine ⟨hrec.1, ?_⟩
      have hslice : ((q :: qs).map MPartition.poll).map MPartition.slice
          = (q :: qs).map MPartition.slice := by
        rw [List.map_map]
        exact List.map_congr_left fun p _ => mpartition_poll_slice p
      rw [List.map_append]
      refine ((hrec.2).append_left _).trans ?_
      rw [hyield, hkeep, ← List.map_append]
      refine ((List.filter_append_perm _ _).map MPartition.slice).trans ?_
      rw [hslice]

/-- C6: when every input slice's job schedule eventually reports COMPLETED and
the fuel covers every schedule, `create_and_get_completed_partitions` yields
exactly one partition per input slice — the yielded slices are a permutation of
the input slices, so never fewer and never a duplicate — and terminates
normally. -/
theorem orchestrator_one_partition_per_slice
    (slices : List (Nat × List AsyncJobStatus)) (fuel : Nat)
    (h : ∀ s ∈ slices, completes_sched s.2 = true ∧ rounds_to_complete s.2 ≤ fuel) :
    (orch_run fuel (orch_start_jobs slices)).outcome = .ok ∧
    ((orch_run fuel (orch_start_jobs slices)).yielded.map MPartition.slice).Perm
      (slices.map Prod.fst) := by
  have hmain := orch_run_all_complete fuel (orch_start_jobs slices) ?_
  · refine ⟨hmain.1, ?_⟩
    have : (orch_start_jobs slices).map MPartition.slice = slices.map Prod.fst := by
      rw [orch_start_jobs, List.map_map]
      rfl
    rw [this] at hmain
    exact hmain.2
  · intro p hp
    rw [orch_start_jobs, List.mem_map] at hp
    obtain ⟨s, hs, rfl⟩ := hp
    exact ⟨rfl, (h s hs).1, (h s hs).2⟩

/-- Witness for C6 at a concrete two-slice input: one job completes after one
extra RUNNING poll, the other at once; both slices are yielded and the run ends
normally. -/
theorem orchestrator_one_partition_per_slice_witness :
    (orch_run 2 (orch_start_jobs
      [(0, [RUNNING, COMPLETED]), (1, [COMPLETED])])).outcome = .ok ∧
    ((orch_run 2 (orch_start_jobs
      [(0, [RUNNING, COMPLETED]), (1, [COMPLETED])])).yielded.map
        MPartition.slice).Perm [0, 1] :=
  orchestrator_one_partition_per_slice [(0, [RUNNING, COMPLETED]), (1, [COMPLETED])] 2
    (by decide)

end Airbyte
